import Mathlib

/-
Verification of verify_spectral_law.py, a script checking the
"Fibonacci-Lucas Spectral Law" for the trinomials x^n = x + 1.

The script's symbolic pipeline is embedded over integer coefficient lists:
resultants P_{m,n}(t) = Resultant_x(x^m - x - 1, t^n - t*x^(n-1) - x^n)
are computed as the determinant of the multiplication-by-g matrix on
Int[t][x]/(x^m - x - 1) (for monic f, that determinant is exactly the
resultant), the resultant is divided by the golden polynomial t^2 - t - 1
by exact long division, and the field norm N(a*phi + b) = -a^2 + a*b + b^2 is
evaluated on the remainder.  The mpmath root finder is an external black box;
its target value is modelled from the spec as the unique real root > 1 of
x^n = x + 1.
-/

set_option maxRecDepth 8000

/- ═══════════════ Definitions: pass/fail harness ═══════════════ -/

/-- The script's check(name, condition): increments PASS on a true condition
and FAIL on a false one (the label only affects printing). -/
def check (condition : Bool) (s : Nat × Nat) : Nat × Nat :=
  if condition then (s.1 + 1, s.2) else (s.1, s.2 + 1)

/-- Folding a list of check conditions over a starting (PASS, FAIL) state. -/
def runChecksFrom (s : Nat × Nat) (bs : List Bool) : Nat × Nat :=
  bs.foldl (fun acc b => check b acc) s

/-- A whole run of the harness from the initial state (0, 0). -/
def runChecks (bs : List Bool) : Nat × Nat := runChecksFrom (0, 0) bs

/-- The script's final step: raise AssertionError(FAIL) when FAIL > 0,
otherwise complete normally. -/
def finalResult (s : Nat × Nat) : Except Nat Unit :=
  if s.2 > 0 then Except.error s.2 else Except.ok ()

/-- Conjunction of a list of propositions (the conditions of all checks). -/
def listAnd : List Prop → Prop
  | [] => True
  | c :: cs => c ∧ listAnd cs

/- ═══════════════ Definitions: integer sequences and the field norm ═══════ -/

/-- Fibonacci pairs (F n, F (n+1)) with F 0 = 0, F 1 = 1. -/
def fibPair : Nat → Int × Int
  | 0 => (0, 1)
  | k + 1 => ((fibPair k).2, (fibPair k).1 + (fibPair k).2)

/-- The Fibonacci numbers, as sympy's fibonacci. -/
def fibonacci (n : Nat) : Int := (fibPair n).1

/-- Lucas pairs (L n, L (n+1)) with L 0 = 2, L 1 = 1. -/
def lucasPair : Nat → Int × Int
  | 0 => (2, 1)
  | k + 1 => ((lucasPair k).2, (lucasPair k).1 + (lucasPair k).2)

/-- The Lucas numbers, as sympy's lucas. -/
def lucas (n : Nat) : Int := (lucasPair n).1

/-- field_norm(a, b) = N_{Q(sqrt 5)/Q}(a*phi + b) = -a^2 + a*b + b^2. -/
def field_norm (a b : Int) : Int := -a ^ 2 + a * b + b ^ 2

/- ═══════════════ Definitions: polynomials in t (ascending lists) ═════════ -/

/-- Addition of ascending coefficient lists. -/
def addP : List Int → List Int → List Int
  | [], q => q
  | p, [] => p
  | a :: p, b :: q => (a + b) :: addP p q

/-- Negation of a coefficient list. -/
def negP (p : List Int) : List Int := p.map (fun c => -c)

/-- Subtraction of ascending coefficient lists. -/
def subP (p q : List Int) : List Int := addP p (negP q)

/-- Scalar multiple of a coefficient list. -/
def smulP (c : Int) (p : List Int) : List Int := p.map (fun a => c * a)

/-- Product of ascending coefficient lists. -/
def mulP : List Int → List Int → List Int
  | [], _ => []
  | a :: p, q => addP (smulP a q) ((0 : Int) :: mulP p q)

/-- Determinant of a square matrix of polynomials in t, by cofactor expansion
along the first row; the Nat argument is the matrix size (structural fuel).
The determinant is invariant under transposition, so the rows may equally be
read as columns. -/
def detP : Nat → List (List (List Int)) → List Int
  | 0, _ => [1]
  | _ + 1, [] => [1]
  | k + 1, row :: rest =>
    (List.range row.length).foldl
      (fun acc j =>
        let term := mulP (row.getD j []) (detP k (rest.map (fun r => r.eraseIdx j)))
        if j % 2 = 0 then addP acc term else subP acc term)
      []

/-- The monomial t^n as an ascending coefficient list. -/
def tPow (n : Nat) : List Int := List.replicate n 0 ++ [1]

/-- The second input polynomial t^n - t*x^(n-1) - x^n of the resultant, as a
list of coefficients in x (ascending); each entry is a polynomial in t. -/
def gB (n : Nat) : List (List Int) :=
  (List.range (n + 1)).map (fun i =>
    if i = 0 then tPow n
    else if i = n - 1 then [0, -1]
    else if i = n then [-1]
    else [])

/-- Add the polynomial c at position k of a list of polynomials in t
(padding with zero polynomials when needed). -/
def addAt : Nat → List Int → List (List Int) → List (List Int)
  | 0, c, [] => [c]
  | 0, c, q :: qs => addP q c :: qs
  | k + 1, c, [] => [] :: addAt k c []
  | k + 1, c, q :: qs => q :: addAt k c qs

/-- One top-reduction step modulo x^m - x - 1: the top coefficient c * x^(L-1)
is replaced by c * x^(L-m) + c * x^(L-1-m). -/
def reduceStep (m : Nat) (p : List (List Int)) : List (List Int) :=
  match p.getLast? with
  | none => p
  | some c =>
    if p.length ≤ m then p
    else addAt (p.length - 1 - m) c (addAt (p.length - m) c p.dropLast)

/-- Full reduction modulo x^m - x - 1, with fuel. -/
def reduceModAux (m : Nat) : Nat → List (List Int) → List (List Int)
  | 0, p => p
  | f + 1, p => if p.length ≤ m then p else reduceModAux m f (reduceStep m p)

/-- Full reduction modulo x^m - x - 1. -/
def reduceMod (m : Nat) (p : List (List Int)) : List (List Int) :=
  reduceModAux m p.length p

/-- Pad a coordinate vector over Int[t] to length m. -/
def padTo (m : Nat) (p : List (List Int)) : List (List Int) :=
  p ++ List.replicate (m - p.length) []

/-- The columns of the matrix of multiplication by a reduced element col on
the basis 1, x, ..., x^(m-1) of Int[t][x]/(x^m - x - 1): column j+1 is the
reduction of x times column j. -/
def mulMatColsAux (m : Nat) : Nat → List (List Int) → List (List (List Int))
  | 0, _ => []
  | k + 1, col => padTo m col :: mulMatColsAux m k (reduceMod m (([] : List Int) :: col))

/-- resultant(x^m - x - 1, t^n - t*x^(n-1) - x^n, x): for the monic first
argument this is the determinant of multiplication by the second argument on
Int[t][x]/(x^m - x - 1), which equals the product of the second argument over
the roots of the first, i.e. the Sylvester resultant. Ascending coefficients
in t. -/
def resultantP (m n : Nat) : List Int :=
  detP m (mulMatColsAux m m (reduceMod m (gB n)))

/-- Canonical descending coefficient list: leading zeros dropped, the zero
polynomial is [0] — exactly sympy's Poly.all_coeffs() convention. -/
def canonD (r : List Int) : List Int :=
  let s := r.dropWhile (fun c => c == 0)
  if s.isEmpty then [0] else s

/-- P_{m,n}(t) as the script holds it: the canonical descending coefficient
list of the resultant. -/
def Pdesc (m n : Nat) : List Int := canonD (resultantP m n).reverse

/-- Subtract a list from the leading coefficients of a descending list. -/
def subFront : List Int → List Int → List Int
  | p, [] => p
  | [], _ => []
  | a :: p, b :: s => (a - b) :: subFront p s

/-- Long division of a descending coefficient list by the monic divisor
1 :: dtail, with fuel; returns (quotient, remainder), remainder length
at most dtail.length. -/
def divModDAux (dtail : List Int) : Nat → List Int → List Int × List Int
  | 0, p => ([], p)
  | f + 1, p =>
    match p with
    | [] => ([], [])
    | c :: p' =>
      if p'.length < dtail.length then ([], c :: p')
      else
        let qr := divModDAux dtail f (subFront p' (dtail.map (fun d => c * d)))
        (c :: qr.1, qr.2)

/-- The golden polynomial t^2 - t - 1 (descending coefficients). -/
def golden : List Int := [1, -1, -1]

/-- div(P, golden): exact long division by t^2 - t - 1. -/
def divModGolden (p : List Int) : List Int × List Int :=
  divModDAux [-1, -1] p.length p

/-- The remainder of P_{m,n}(t) modulo the golden polynomial. -/
def remOf (m n : Nat) : List Int := (divModGolden (Pdesc m n)).2

/-- The script's extraction of (a, b) from rem.all_coeffs(): a is coeffs[0]
when the remainder has degree 1, otherwise 0; b is the trailing coefficient. -/
def remPair (r : List Int) : Int × Int :=
  let coeffs := canonD r
  if coeffs.length = 2 then (coeffs.getD 0 0, coeffs.getD 1 0) else (0, coeffs.getD 0 0)

/-- norms[(m, n)] of the Theorem 6 loop. -/
def normOf (m n : Nat) : Int :=
  field_norm (remPair (remOf m n)).1 (remPair (remOf m n)).2

/-- Addition of descending coefficient lists. -/
def addD (p q : List Int) : List Int := (addP p.reverse q.reverse).reverse

/-- Product of descending coefficient lists. -/
def mulD (p q : List Int) : List Int := (mulP p.reverse q.reverse).reverse

/-- Horner evaluation of a descending coefficient list; two integer
polynomials are equal coefficient-wise iff they agree at every integer. -/
def evalD (p : List Int) (x : Int) : Int := p.foldl (fun acc c => acc * x + c) 0

/-- The coefficient list of P_{3,4}(t) asserted in equation (11) of the paper. -/
def expectedCoeffs : List Int := [1, 0, 0, -3, -2, 0, 2, -1, -3, -1, 0, 1, -1]

/-- The condition of the Theorem 2 check for one n: the remainder pair matches
the closed-form Fibonacci prediction and its norm the Lucas prediction. -/
def thm2ok (n : Nat) : Prop :=
  (remPair (remOf 2 n)).1 = -fibonacci (2 * n) + (-1) ^ (n + 1) ∧
  (remPair (remOf 2 n)).2 = -fibonacci (2 * n - 1) ∧
  field_norm (remPair (remOf 2 n)).1 (remPair (remOf 2 n)).2 = (-1) ^ (n + 1) * lucas (2 * n - 1)

/-- The Theorem 2 condition is decidable by computation. -/
instance thm2okDec (n : Nat) : Decidable (thm2ok n) := by
  unfold thm2ok
  infer_instance

/-- The pairs (m, n) of the Theorem 6 loop, in loop order. -/
def thm6Pairs : List (Nat × Nat) :=
  [(2, 3), (2, 4), (2, 5), (2, 6), (2, 7), (2, 8),
   (3, 4), (3, 5), (3, 6), (3, 7), (3, 8),
   (4, 5), (4, 6), (4, 7), (4, 8),
   (5, 6), (5, 7), (5, 8),
   (6, 7), (6, 8),
   (7, 8)]

/- ═══════════════ Definitions: the numeric side ═══════════════ -/

/-- Modelled from the spec: get_real_root(n) computes (via mpmath's findroot,
an external black box) the unique real number r > 1 with r^n = r + 1; this
predicate captures that target value exactly. -/
def realRootSpec (n : Nat) (r : ℝ) : Prop := 1 < r ∧ r ^ n = r + 1

/-- Binary exponentiation with fuel (kernel-friendly big powers). -/
def powAux (a : Nat) : Nat → Nat → Nat
  | 0, _ => 1
  | f + 1, n =>
    if n = 0 then 1
    else
      let h := powAux a f (n / 2)
      if n % 2 = 0 then h * h else h * h * a

/-- a ^ n through binary exponentiation (valid for n < 2^64). -/
def natPow (a n : Nat) : Nat := powAux a 64 n

/-- The condition of the numeric Proposition 3 check: |P_{3,4}(rho*r4)| below
10^-45, with the roots taken as the spec-modelled exact values. -/
def prop3NumericCheck : Prop :=
  ∃ x y : ℝ, realRootSpec 3 x ∧ realRootSpec 4 y ∧
    |(x * y) ^ 12 - 3 * (x * y) ^ 9 - 2 * (x * y) ^ 8 + 2 * (x * y) ^ 6 - (x * y) ^ 5
      - 3 * (x * y) ^ 4 - (x * y) ^ 3 + x * y - 1| < 1 / 10 ^ 45

/-- The condition of the main Corollary 8 check: the entropy surplus
h2 - (h3 + h4) as a percentage of h2 is within 0.001 of 0.115. -/
def cor8MainCheck : Prop :=
  ∃ a b c : ℝ, realRootSpec 2 a ∧ realRootSpec 3 b ∧ realRootSpec 4 c ∧
    |(Real.log a - (Real.log b + Real.log c)) / Real.log a * 100 - 0.115| < 0.001

/-- The condition of the Corollary 8 deficit check for n: the deficit
percentage |h_n - (h_(n+1) + h_(n+2))| / h_n * 100 exceeds 25. -/
def cor8DeficitCheck (n : Nat) : Prop :=
  ∃ a b c : ℝ, realRootSpec n a ∧ realRootSpec (n + 1) b ∧ realRootSpec (n + 2) c ∧
    |(Real.log a - (Real.log b + Real.log c)) / Real.log a| * 100 > 25

/-- The conditions of all 29 checks the script executes, in program order:
5 for Theorem 4, 3 for Proposition 3, 11 for Theorem 2 (n = 3..13), 5 for
Theorem 6 and 5 for Corollary 8. -/
def allChecks : List Prop :=
  [Pdesc 3 4 = expectedCoeffs,
   canonD (divModGolden (Pdesc 3 4)).2 = [1, -1],
   canonD (divModGolden (Pdesc 3 4)).1 = [1, 1, 2, 0, 0, 0, 2, 1, 0, 0, 0],
   field_norm 1 (-1) = -1,
   canonD (addD (mulD golden (divModGolden (Pdesc 3 4)).1) [1, -1]) = Pdesc 3 4,
   expectedCoeffs.sum = -7,
   (expectedCoeffs.enum.map (fun p => p.2 * (-1) ^ (12 - p.1))).sum = 1,
   prop3NumericCheck,
   thm2ok 3, thm2ok 4, thm2ok 5, thm2ok 6, thm2ok 7, thm2ok 8, thm2ok 9,
   thm2ok 10, thm2ok 11, thm2ok 12, thm2ok 13,
   normOf 3 4 = -1,
   (thm6Pairs.filter (fun p => (normOf p.1 p.2).natAbs == 1)).length = 1,
   ((thm6Pairs.map (fun p => (normOf p.1 p.2).natAbs)).filter (fun v => 1 < v)).min? = some 11,
   (normOf 2 3).natAbs = 11,
   (thm6Pairs.filter (fun p => p != (3, 4))).all (fun p => 11 ≤ (normOf p.1 p.2).natAbs) = true,
   cor8MainCheck,
   cor8DeficitCheck 3, cor8DeficitCheck 4, cor8DeficitCheck 5, cor8DeficitCheck 6]

/- ═══════════════ Helper lemmas: the harness ═══════════════ -/

theorem runChecksFrom_cons (s : Nat × Nat) (b : Bool) (bs : List Bool) :
    runChecksFrom s (b :: bs) = runChecksFrom (check b s) bs := rfl

theorem runChecksFrom_sum : ∀ (bs : List Bool) (s : Nat × Nat),
    (runChecksFrom s bs).1 + (runChecksFrom s bs).2 = s.1 + s.2 + bs.length := by
  intro bs
  induction bs with
  | nil => intro s; simp [runChecksFrom]
  | cons b bs ih =>
    intro s
    rw [runChecksFrom_cons, ih (check b s)]
    cases b <;> simp [check] <;> omega

theorem runChecksFrom_mono : ∀ (bs : List Bool) (s : Nat × Nat),
    s.1 ≤ (runChecksFrom s bs).1 ∧ s.2 ≤ (runChecksFrom s bs).2 := by
  intro bs
  induction bs with
  | nil => intro s; exact ⟨le_refl _, le_refl _⟩
  | cons b bs ih =>
    intro s
    rw [runChecksFrom_cons]
    have := ih (check b s)
    cases b <;> simp [check] at this ⊢ <;> omega

theorem runChecksFrom_true : ∀ (k : Nat) (s : Nat × Nat),
    runChecksFrom s (List.replicate k true) = (s.1 + k, s.2) := by
  intro k
  induction k with
  | zero => intro s; simp [runChecksFrom]
  | succ k ih =>
    intro s
    show runChecksFrom s (true :: List.replicate k true) = _
    rw [runChecksFrom_cons, ih (check true s)]
    simp [check]
    omega

/- ═══════════════ Helper lemmas: exact division by the golden polynomial ═══ -/

theorem evalD_from (x : Int) :
    ∀ (l : List Int) (a : Int), l.foldl (fun acc c => acc * x + c) a = a * x ^ l.length + evalD l x := by
  intro l
  induction l with
  | nil => intro a; simp [evalD]
  | cons c l ih =>
    intro a
    show List.foldl (fun acc c => acc * x + c) (a * x + c) l = _
    rw [ih (a * x + c)]
    have hc : evalD (c :: l) x = c * x ^ l.length + evalD l x := by
      show List.foldl (fun acc c => acc * x + c) ((0 : Int) * x + c) l = _
      rw [ih ((0 : Int) * x + c)]
      ring
    rw [hc]
    simp only [List.length_cons]
    ring

theorem evalD_cons (c : Int) (p : List Int) (x : Int) :
    evalD (c :: p) x = c * x ^ p.length + evalD p x := by
  show List.foldl (fun acc c => acc * x + c) ((0 : Int) * x + c) p = _
  rw [evalD_from x p ((0 : Int) * x + c)]
  ring

theorem length_subFront : ∀ (p s : List Int), s.length ≤ p.length → (subFront p s).length = p.length := by
  intro p
  induction p with
  | nil =>
    intro s hs
    match s with
    | [] => rfl
    | b :: s => simp at hs
  | cons a p ih =>
    intro s hs
    match s with
    | [] => rfl
    | b :: s =>
      show (subFront p s).length + 1 = p.length + 1
      rw [ih s (by simpa using hs)]

theorem evalD_subFront (x : Int) :
    ∀ (p s : List Int), s.length ≤ p.length →
      evalD (subFront p s) x = evalD p x - evalD s x * x ^ (p.length - s.length) := by
  intro p
  induction p with
  | nil =>
    intro s hs
    match s with
    | [] => simp [subFront, evalD]
    | b :: s => simp at hs
  | cons a p ih =>
    intro s hs
    match s with
    | [] =>
      show evalD (a :: p) x = evalD (a :: p) x - evalD [] x * x ^ ((a :: p).length - List.length [])
      have h0 : evalD ([] : List Int) x = 0 := rfl
      rw [h0]
      ring
    | b :: s =>
      have hs' : s.length ≤ p.length := by simpa using hs
      show evalD ((a - b) :: subFront p s) x = _
      rw [evalD_cons, evalD_cons, evalD_cons, length_subFront p s hs', ih s hs']
      have hlen : s.length + (p.length - s.length) = p.length := by omega
      have hxp : x ^ s.length * x ^ (p.length - s.length) = x ^ p.length := by
        rw [← pow_add, hlen]
      simp only [List.length_cons]
      have e1 : (p.length + 1) - (s.length + 1) = p.length - s.length := by omega
      rw [e1]
      linear_combination b * hxp

theorem evalD_smul (x c : Int) :
    ∀ (s : List Int), evalD (s.map (fun d => c * d)) x = c * evalD s x := by
  intro s
  induction s with
  | nil => simp [evalD]
  | cons b s ih =>
    show evalD ((c * b) :: s.map (fun d => c * d)) x = _
    rw [evalD_cons, evalD_cons, ih, List.length_map]
    ring

theorem divModDAux_q_length (dtail : List Int) :
    ∀ f p, p.length ≤ f → ((divModDAux dtail f p).1).length = p.length - dtail.length := by
  intro f
  induction f with
  | zero =>
    intro p hp
    have : p = [] := List.eq_nil_of_length_eq_zero (by omega)
    subst this
    simp [divModDAux]
  | succ f ih =>
    intro p hp
    match p with
    | [] => simp [divModDAux]
    | c :: p' =>
      show ((if p'.length < dtail.length then (([] : List Int), c :: p')
        else
          let qr := divModDAux dtail f (subFront p' (dtail.map (fun d => c * d)))
          (c :: qr.1, qr.2)).1).length = _
      by_cases h : p'.length < dtail.length
      · rw [if_pos h]
        simp
        omega
      · rw [if_neg h]
        have hlen : (subFront p' (dtail.map (fun d => c * d))).length = p'.length := by
          rw [length_subFront]
          rw [List.length_map]
          omega
        have := ih (subFront p' (dtail.map (fun d => c * d))) (by
          rw [hlen]
          simp only [List.length_cons] at hp
          omega)
        simp only [List.length_cons]
        rw [this, hlen]
        omega

theorem divModDAux_r_length (dtail : List Int) :
    ∀ f p, p.length ≤ f → ((divModDAux dtail f p).2).length ≤ dtail.length := by
  intro f
  induction f with
  | zero =>
    intro p hp
    have : p = [] := List.eq_nil_of_length_eq_zero (by omega)
    subst this
    simp [divModDAux]
  | succ f ih =>
    intro p hp
    match p with
    | [] => simp [divModDAux]
    | c :: p' =>
      show ((if p'.length < dtail.length then (([] : List Int), c :: p')
        else
          let qr := divModDAux dtail f (subFront p' (dtail.map (fun d => c * d)))
          (c :: qr.1, qr.2)).2).length ≤ _
      by_cases h : p'.length < dtail.length
      · rw [if_pos h]
        simp
        omega
      · rw [if_neg h]
        have hlen : (subFront p' (dtail.map (fun d => c * d))).length = p'.length := by
          rw [length_subFront]
          rw [List.length_map]
          omega
        exact ih (subFront p' (dtail.map (fun d => c * d))) (by
          rw [hlen]
          simp only [List.length_cons] at hp
          omega)

theorem divModDAux_recon (dtail : List Int) (x : Int) :
    ∀ f p, p.length ≤ f →
      evalD (1 :: dtail) x * evalD ((divModDAux dtail f p).1) x
        + evalD ((divModDAux dtail f p).2) x = evalD p x := by
  intro f
  induction f with
  | zero =>
    intro p hp
    have : p = [] := List.eq_nil_of_length_eq_zero (by omega)
    subst this
    simp [divModDAux, evalD]
  | succ f ih =>
    intro p hp
    match p with
    | [] => simp [divModDAux, evalD]
    | c :: p' =>
      show evalD (1 :: dtail) x * evalD ((if p'.length < dtail.length then (([] : List Int), c :: p')
        else
          let qr := divModDAux dtail f (subFront p' (dtail.map (fun d => c * d)))
          (c :: qr.1, qr.2)).1) x
        + evalD ((if p'.length < dtail.length then (([] : List Int), c :: p')
        else
          let qr := divModDAux dtail f (subFront p' (dtail.map (fun d => c * d)))
          (c :: qr.1, qr.2)).2) x = evalD (c :: p') x
      by_cases h : p'.length < dtail.length
      · rw [if_pos h]
        simp [evalD]
      · rw [if_neg h]
        have hdle : dtail.length ≤ p'.length := by omega
        have hmaplen : (dtail.map (fun d => c * d)).length = dtail.length := List.length_map _ _
        have hlen : (subFront p' (dtail.map (fun d => c * d))).length = p'.length := by
          rw [length_subFront]
          omega
        have hple : (subFront p' (dtail.map (fun d => c * d))).length ≤ f := by
          rw [hlen]
          simp only [List.length_cons] at hp
          omega
        have hrec := ih (subFront p' (dtail.map (fun d => c * d))) hple
        have hqlen := divModDAux_q_length dtail f (subFront p' (dtail.map (fun d => c * d))) hple
        simp only
        rw [evalD_cons c p']
        rw [evalD_cons c ((divModDAux dtail f (subFront p' (dtail.map (fun d => c * d)))).1)]
        rw [evalD_cons (1 : Int) dtail]
        rw [hqlen, hlen]
        have hsub := evalD_subFront x p' (dtail.map (fun d => c * d)) (by omega)
        rw [evalD_smul] at hsub
        rw [hmaplen] at hsub
        rw [hsub] at hrec
        rw [evalD_cons (1 : Int) dtail] at hrec
        have hxsplit : x ^ (p'.length - dtail.length) * x ^ dtail.length = x ^ p'.length := by
          rw [← pow_add]
          congr 1
          omega
        linear_combination hrec + c * hxsplit

/- ═══════════════ Helper lemmas: the real roots of x^n = x + 1 ═══════════ -/

theorem trinomial_mono (n : Nat) (hn : 2 ≤ n) :
    ∀ a b : ℝ, 1 ≤ a → a < b → a ^ n - a < b ^ n - b := by
  induction n with
  | zero => omega
  | succ n ih =>
    intro a b ha hab
    rcases Nat.lt_or_ge n 2 with h2 | h2
    · have hn1 : n = 1 := by omega
      subst hn1
      have e1 : a ^ (1 + 1) = a * a := by ring
      have e2 : b ^ (1 + 1) = b * b := by ring
      nlinarith
    · have key := ih h2 a b ha hab
      have hb : (1 : ℝ) ≤ b := le_of_lt (lt_of_le_of_lt ha hab)
      have hpa : (1 : ℝ) ≤ a ^ n := one_le_pow₀ ha
      have hpow : a ^ n < b ^ n := by nlinarith
      have h1 : a ^ (n + 1) = a ^ n * a := pow_succ a n
      have h2' : b ^ (n + 1) = b ^ n * b := pow_succ b n
      nlinarith

theorem realRootSpec_unique (n : Nat) (r r' : ℝ)
    (h : realRootSpec n r) (h' : realRootSpec n r') : r = r' := by
  obtain ⟨h1, h2⟩ := h
  obtain ⟨h1', h2'⟩ := h'
  rcases Nat.lt_or_ge n 2 with hn | hn
  · interval_cases n
    · exfalso; rw [pow_zero] at h2; linarith
    · exfalso; rw [pow_one] at h2; linarith
  · rcases lt_trichotomy r r' with hlt | heq | hgt
    · have := trinomial_mono n hn r r' (le_of_lt h1) hlt
      rw [h2, h2'] at this
      linarith
    · exact heq
    · have := trinomial_mono n hn r' r (le_of_lt h1') hgt
      rw [h2, h2'] at this
      linarith

theorem realRootSpec_exists (n : Nat) (hn : 2 ≤ n) : ∃ r : ℝ, realRootSpec n r := by
  have hcont : ContinuousOn (fun x : ℝ => x ^ n - x - 1) (Set.Icc 1 2) :=
    (((continuous_pow n).sub continuous_id).sub continuous_const).continuousOn
  have h12 : (1 : ℝ) ≤ 2 := one_le_two
  have hsub := intermediate_value_Icc h12 hcont
  have hmem : (0 : ℝ) ∈ Set.Icc ((fun x : ℝ => x ^ n - x - 1) 1) ((fun x : ℝ => x ^ n - x - 1) 2) := by
    constructor
    · simp
    · simp only
      have : (4 : ℝ) ≤ 2 ^ n := by
        calc (4 : ℝ) = 2 ^ 2 := by norm_num
        _ ≤ 2 ^ n := pow_le_pow_right₀ one_le_two hn
      linarith
  obtain ⟨r, hr, hfr⟩ := hsub hmem
  have hfr' : r ^ n - r - 1 = 0 := hfr
  refine ⟨r, ?_, by linarith⟩
  rcases eq_or_lt_of_le hr.1 with heq | hlt
  · exfalso
    rw [← heq] at hfr'
    simp at hfr'
  · exact hlt

theorem realRootSpec_lt (n : Nat) (hn : 2 ≤ n) (r u : ℝ)
    (h : realRootSpec n r) (hu : 1 ≤ u) (hcond : u + 1 < u ^ n) : r < u := by
  rcases lt_trichotomy r u with hlt | heq | hgt
  · exact hlt
  · exfalso; rw [heq] at h; linarith [h.2]
  · exfalso
    have := trinomial_mono n hn u r hu hgt
    rw [h.2] at this
    linarith

theorem realRootSpec_gt (n : Nat) (hn : 2 ≤ n) (r l : ℝ)
    (h : realRootSpec n r) (_hl : 1 ≤ l) (hcond : l ^ n < l + 1) : l < r := by
  rcases lt_trichotomy l r with hlt | heq | hgt
  · exact hlt
  · exfalso; rw [← heq] at h; linarith [h.2]
  · exfalso
    have := trinomial_mono n hn r l (le_of_lt h.1) hgt
    rw [h.2] at this
    linarith

theorem rootPos (n : Nat) (r : ℝ) (h : realRootSpec n r) : 0 < r :=
  lt_trans one_pos h.1

/- ═══════════════ Helper lemmas: big rational power bounds ═══════════════ -/

theorem powAux_eq (a : Nat) : ∀ f n, n < 2 ^ f → powAux a f n = a ^ n := by
  intro f
  induction f with
  | zero =>
    intro n hn
    interval_cases n
    simp [powAux]
  | succ f ih =>
    intro n hn
    by_cases h0 : n = 0
    · simp [powAux, h0]
    · have hdiv : n / 2 < 2 ^ f := by
        have h2 : 2 ^ (f + 1) = 2 * 2 ^ f := by ring
        omega
      have ihh := ih (n / 2) hdiv
      simp only [powAux, if_neg h0, ihh]
      rcases Nat.mod_two_eq_zero_or_one n with h | h
      · rw [if_pos h, ← pow_add]
        congr 1
        omega
      · rw [if_neg (by omega), ← pow_add, ← pow_succ]
        congr 1
        omega

theorem natPow_eq (a n : Nat) (h : n < 2 ^ 64) : natPow a n = a ^ n :=
  powAux_eq a 64 n h

theorem bigpow1 : (16180340 : Nat) ^ 99884 * 10 ^ 700812 ≤ (13247179 * 12207440 : Nat) ^ 100000 := by
  rw [← natPow_eq 16180340 99884 (by norm_num), ← natPow_eq 10 700812 (by norm_num),
      ← natPow_eq (13247179 * 12207440) 100000 (by norm_num)]
  decide

theorem bigpow2 : (13247180 * 12207441 : Nat) ^ 100000 ≤ (16180339 : Nat) ^ 99886 * 10 ^ 700798 := by
  rw [← natPow_eq (13247180 * 12207441) 100000 (by norm_num), ← natPow_eq 16180339 99886 (by norm_num),
      ← natPow_eq 10 700798 (by norm_num)]
  decide

theorem castpow1 : (16180340 : ℝ) ^ 99884 * 10 ^ 700812 ≤ (13247179 * 12207440 : ℝ) ^ 100000 := by
  have h := (Nat.cast_le (α := ℝ)).mpr bigpow1
  simp only [Nat.cast_mul, Nat.cast_pow, Nat.cast_ofNat] at h
  exact h

theorem castpow2 : (13247180 * 12207441 : ℝ) ^ 100000 ≤ (16180339 : ℝ) ^ 99886 * 10 ^ 700798 := by
  have h := (Nat.cast_le (α := ℝ)).mpr bigpow2
  simp only [Nat.cast_mul, Nat.cast_pow, Nat.cast_ofNat] at h
  exact h

theorem ratpow1 : ((16180340 : ℝ) / 10 ^ 7) ^ 99884 ≤ ((13247179 : ℝ) / 10 ^ 7 * ((12207440 : ℝ) / 10 ^ 7)) ^ 100000 := by
  have e : ((13247179 : ℝ) / 10 ^ 7 * ((12207440 : ℝ) / 10 ^ 7)) = (13247179 * 12207440 : ℝ) / 10 ^ 14 := by
    ring
  rw [e, div_pow, div_pow, div_le_div_iff₀ (by positivity) (by positivity)]
  have e1 : (((10 : ℝ) ^ 14) ^ 100000) = 10 ^ 700812 * 10 ^ 699188 := by
    rw [← pow_mul, ← pow_add]
  have e2 : (((10 : ℝ) ^ 7) ^ 99884) = 10 ^ 699188 := by
    rw [← pow_mul]
  rw [e1, e2, ← mul_assoc]
  exact mul_le_mul_of_nonneg_right castpow1 (by positivity)

theorem ratpow2 : ((13247180 : ℝ) / 10 ^ 7 * ((12207441 : ℝ) / 10 ^ 7)) ^ 100000 ≤ ((16180339 : ℝ) / 10 ^ 7) ^ 99886 := by
  have e : ((13247180 : ℝ) / 10 ^ 7 * ((12207441 : ℝ) / 10 ^ 7)) = (13247180 * 12207441 : ℝ) / 10 ^ 14 := by
    ring
  rw [e, div_pow, div_pow, div_le_div_iff₀ (by positivity) (by positivity)]
  have e1 : (((10 : ℝ) ^ 14) ^ 100000) = 10 ^ 700798 * 10 ^ 699202 := by
    rw [← pow_mul, ← pow_add]
  have e2 : (((10 : ℝ) ^ 7) ^ 99886) = 10 ^ 699202 := by
    rw [← pow_mul]
  rw [e1, e2, ← mul_assoc]
  exact mul_le_mul_of_nonneg_right castpow2 (by positivity)

/- ═══════════════ Helper lemmas: Corollary 8 logarithm bounds ═════════════ -/

theorem mainLogPair (r2 r3 r4 : ℝ) (h2 : realRootSpec 2 r2) (h3 : realRootSpec 3 r3)
    (h4 : realRootSpec 4 r4) :
    99884 * Real.log r2 < 100000 * (Real.log r3 + Real.log r4) ∧
      100000 * (Real.log r3 + Real.log r4) < 99886 * Real.log r2 := by
  have p2 := rootPos 2 r2 h2
  have p3 := rootPos 3 r3 h3
  have p4 := rootPos 4 r4 h4
  have b2u : r2 < (16180340 : ℝ) / 10 ^ 7 :=
    realRootSpec_lt 2 (by norm_num) r2 _ h2 (by norm_num) (by norm_num)
  have b2l : (16180339 : ℝ) / 10 ^ 7 < r2 :=
    realRootSpec_gt 2 (by norm_num) r2 _ h2 (by norm_num) (by norm_num)
  have b3u : r3 < (13247180 : ℝ) / 10 ^ 7 :=
    realRootSpec_lt 3 (by norm_num) r3 _ h3 (by norm_num) (by norm_num)
  have b3l : (13247179 : ℝ) / 10 ^ 7 < r3 :=
    realRootSpec_gt 3 (by norm_num) r3 _ h3 (by norm_num) (by norm_num)
  have b4u : r4 < (12207441 : ℝ) / 10 ^ 7 :=
    realRootSpec_lt 4 (by norm_num) r4 _ h4 (by norm_num) (by norm_num)
  have b4l : (12207440 : ℝ) / 10 ^ 7 < r4 :=
    realRootSpec_gt 4 (by norm_num) r4 _ h4 (by norm_num) (by norm_num)
  constructor
  · have hp : r2 ^ 99884 < (r3 * r4) ^ 100000 := by
      calc r2 ^ 99884 < ((16180340 : ℝ) / 10 ^ 7) ^ 99884 :=
            pow_lt_pow_left₀ b2u (le_of_lt p2) (by norm_num)
        _ ≤ ((13247179 : ℝ) / 10 ^ 7 * ((12207440 : ℝ) / 10 ^ 7)) ^ 100000 := ratpow1
        _ < (r3 * r4) ^ 100000 :=
            pow_lt_pow_left₀ (mul_lt_mul'' b3l b4l (by norm_num) (by norm_num))
              (by positivity) (by norm_num)
    have hlog := Real.log_lt_log (by positivity) hp
    rw [Real.log_pow, Real.log_pow, Real.log_mul (ne_of_gt p3) (ne_of_gt p4)] at hlog
    push_cast at hlog
    linarith
  · have hp : (r3 * r4) ^ 100000 < r2 ^ 99886 := by
      calc (r3 * r4) ^ 100000
          < ((13247180 : ℝ) / 10 ^ 7 * ((12207441 : ℝ) / 10 ^ 7)) ^ 100000 :=
            pow_lt_pow_left₀ (mul_lt_mul'' b3u b4u (by positivity) (by positivity))
              (by positivity) (by norm_num)
        _ ≤ ((16180339 : ℝ) / 10 ^ 7) ^ 99886 := ratpow2
        _ < r2 ^ 99886 := pow_lt_pow_left₀ b2l (by positivity) (by norm_num)
    have hlog := Real.log_lt_log (by positivity) hp
    rw [Real.log_pow, Real.log_pow, Real.log_mul (ne_of_gt p3) (ne_of_gt p4)] at hlog
    push_cast at hlog
    linarith

theorem deficitLog (n m k : Nat) (rn rm rk : ℝ) (u l1 l2 : ℝ)
    (hn2 : 2 ≤ n) (hm2 : 2 ≤ m) (hk2 : 2 ≤ k)
    (hn : realRootSpec n rn) (hm : realRootSpec m rm) (hk : realRootSpec k rk)
    (hu1 : 1 ≤ u) (hucond : u + 1 < u ^ n)
    (hl1 : 1 ≤ l1) (hl1cond : l1 ^ m < l1 + 1)
    (hl2 : 1 ≤ l2) (hl2cond : l2 ^ k < l2 + 1)
    (hrat : u ^ 5 ≤ (l1 * l2) ^ 4) :
    5 * Real.log rn < 4 * (Real.log rm + Real.log rk) := by
  have pn := rootPos n rn hn
  have pm := rootPos m rm hm
  have pk := rootPos k rk hk
  have bu : rn < u := realRootSpec_lt n hn2 rn u hn hu1 hucond
  have b1 : l1 < rm := realRootSpec_gt m hm2 rm l1 hm hl1 hl1cond
  have b2 : l2 < rk := realRootSpec_gt k hk2 rk l2 hk hl2 hl2cond
  have hp : rn ^ 5 < (rm * rk) ^ 4 := by
    calc rn ^ 5 < u ^ 5 := pow_lt_pow_left₀ bu (le_of_lt pn) (by norm_num)
      _ ≤ (l1 * l2) ^ 4 := hrat
      _ < (rm * rk) ^ 4 :=
          pow_lt_pow_left₀ (mul_lt_mul'' b1 b2 (by linarith) (by linarith))
            (by positivity) (by norm_num)
  have hlog := Real.log_lt_log (by positivity) hp
  rw [Real.log_pow, Real.log_pow, Real.log_mul (ne_of_gt pm) (ne_of_gt pk)] at hlog
  push_cast at hlog
  linarith

theorem deficitLog3 (r3 r4 r5 : ℝ) (h3 : realRootSpec 3 r3) (h4 : realRootSpec 4 r4)
    (h5 : realRootSpec 5 r5) :
    5 * Real.log r3 < 4 * (Real.log r4 + Real.log r5) :=
  deficitLog 3 4 5 r3 r4 r5 ((13247180 : ℝ) / 10 ^ 7) ((12207440 : ℝ) / 10 ^ 7) ((116730 : ℝ) / 10 ^ 5)
    (by norm_num) (by norm_num) (by norm_num) h3 h4 h5
    (by norm_num) (by norm_num) (by norm_num) (by norm_num) (by norm_num) (by norm_num)
    (by norm_num)

theorem deficitLog4 (r4 r5 r6 : ℝ) (h4 : realRootSpec 4 r4) (h5 : realRootSpec 5 r5)
    (h6 : realRootSpec 6 r6) :
    5 * Real.log r4 < 4 * (Real.log r5 + Real.log r6) :=
  deficitLog 4 5 6 r4 r5 r6 ((12207441 : ℝ) / 10 ^ 7) ((116730 : ℝ) / 10 ^ 5) ((113472 : ℝ) / 10 ^ 5)
    (by norm_num) (by norm_num) (by norm_num) h4 h5 h6
    (by norm_num) (by norm_num) (by norm_num) (by norm_num) (by norm_num) (by norm_num)
    (by norm_num)

theorem deficitLog5 (r5 r6 r7 : ℝ) (h5 : realRootSpec 5 r5) (h6 : realRootSpec 6 r6)
    (h7 : realRootSpec 7 r7) :
    5 * Real.log r5 < 4 * (Real.log r6 + Real.log r7) :=
  deficitLog 5 6 7 r5 r6 r7 ((116731 : ℝ) / 10 ^ 5) ((113472 : ℝ) / 10 ^ 5) ((111277 : ℝ) / 10 ^ 5)
    (by norm_num) (by norm_num) (by norm_num) h5 h6 h7
    (by norm_num) (by norm_num) (by norm_num) (by norm_num) (by norm_num) (by norm_num)
    (by norm_num)

theorem deficitLog6 (r6 r7 r8 : ℝ) (h6 : realRootSpec 6 r6) (h7 : realRootSpec 7 r7)
    (h8 : realRootSpec 8 r8) :
    5 * Real.log r6 < 4 * (Real.log r7 + Real.log r8) :=
  deficitLog 6 7 8 r6 r7 r8 ((113473 : ℝ) / 10 ^ 5) ((111277 : ℝ) / 10 ^ 5) ((109698 : ℝ) / 10 ^ 5)
    (by norm_num) (by norm_num) (by norm_num) h6 h7 h8
    (by norm_num) (by norm_num) (by norm_num) (by norm_num) (by norm_num) (by norm_num)
    (by norm_num)

theorem mainRatioAbs (r2 r3 r4 : ℝ) (h2 : realRootSpec 2 r2) (h3 : realRootSpec 3 r3)
    (h4 : realRootSpec 4 r4) :
    |(Real.log r2 - (Real.log r3 + Real.log r4)) / Real.log r2 - 0.00115| < 0.00001 := by
  obtain ⟨hA, hB⟩ := mainLogPair r2 r3 r4 h2 h3 h4
  have hpos : 0 < Real.log r2 := Real.log_pos h2.1
  set S := Real.log r3 + Real.log r4 with hS
  have hq : (Real.log r2 - S) / Real.log r2 = 1 - S / Real.log r2 := by
    rw [sub_div, div_self (ne_of_gt hpos)]
  have hqu : S / Real.log r2 < 99886 / 100000 := by
    rw [div_lt_div_iff₀ hpos (by norm_num)]
    linarith
  have hql : (99884 : ℝ) / 100000 < S / Real.log r2 := by
    rw [div_lt_div_iff₀ (by norm_num) hpos]
    linarith
  rw [hq, abs_lt]
  constructor <;> nlinarith [hqu, hql]

theorem mainRatioPct (r2 r3 r4 : ℝ) (h2 : realRootSpec 2 r2) (h3 : realRootSpec 3 r3)
    (h4 : realRootSpec 4 r4) :
    |(Real.log r2 - (Real.log r3 + Real.log r4)) / Real.log r2 * 100 - 0.115| < 0.001 := by
  have habs := mainRatioAbs r2 r3 r4 h2 h3 h4
  have e : (Real.log r2 - (Real.log r3 + Real.log r4)) / Real.log r2 * 100 - 0.115
      = 100 * ((Real.log r2 - (Real.log r3 + Real.log r4)) / Real.log r2 - 0.00115) := by
    ring_nf
  rw [e, abs_mul]
  rw [abs_of_pos (by norm_num : (0:ℝ) < 100)]
  calc (100 : ℝ) * |(Real.log r2 - (Real.log r3 + Real.log r4)) / Real.log r2 - 0.00115|
      < 100 * 0.00001 := by linarith
    _ = 0.001 := by norm_num

theorem deficitRatio (hn S : ℝ) (hpos : 0 < hn) (hlt : 5 * hn < 4 * S) :
    |hn - S| / hn > 0.25 := by
  have habs : |hn - S| = S - hn := by
    rw [abs_of_neg (by linarith)]
    ring
  rw [habs, gt_iff_lt, lt_div_iff₀ hpos]
  linarith

theorem deficitRatioPct (hn S : ℝ) (hpos : 0 < hn) (hlt : 5 * hn < 4 * S) :
    |(hn - S) / hn| * 100 > 25 := by
  have habs : |(hn - S) / hn| = (S - hn) / hn := by
    rw [abs_div, abs_of_pos hpos, abs_of_neg (by linarith : hn - S < 0)]
    ring_nf
  rw [habs]
  have h1 : (S - hn) / hn > 1 / 4 := by
    rw [gt_iff_lt, div_lt_div_iff₀ (by norm_num) hpos]
    linarith
  nlinarith [h1]

/- ═══════════════ Helper lemmas: P_{3,4} at the product of the roots ══════ -/

theorem P34_prod_root (x y : ℝ) (hx : realRootSpec 3 x) (hy : realRootSpec 4 y) :
    (x * y) ^ 12 - 3 * (x * y) ^ 9 - 2 * (x * y) ^ 8 + 2 * (x * y) ^ 6 - (x * y) ^ 5
      - 3 * (x * y) ^ 4 - (x * y) ^ 3 + x * y - 1 = 0 := by
  have h3 : x ^ 3 = x + 1 := hx.2
  have h4 : y ^ 4 = y + 1 := hy.2
  have hx4 : x ^ 4 = x ^ 2 + x := by linear_combination x * h3
  have hx5 : x ^ 5 = x ^ 2 + x + 1 := by linear_combination x * hx4 + h3
  have hx6 : x ^ 6 = x ^ 2 + 2 * x + 1 := by linear_combination x * hx5 + h3
  have hx7 : x ^ 7 = 2 * x ^ 2 + 2 * x + 1 := by linear_combination x * hx6 + h3
  have hx8 : x ^ 8 = 2 * x ^ 2 + 3 * x + 2 := by linear_combination x * hx7 + 2 * h3
  have hx9 : x ^ 9 = 3 * x ^ 2 + 4 * x + 2 := by linear_combination x * hx8 + 2 * h3
  have hx10 : x ^ 10 = 4 * x ^ 2 + 5 * x + 3 := by linear_combination x * hx9 + 3 * h3
  have hx11 : x ^ 11 = 5 * x ^ 2 + 7 * x + 4 := by linear_combination x * hx10 + 4 * h3
  have hx12 : x ^ 12 = 7 * x ^ 2 + 9 * x + 5 := by linear_combination x * hx11 + 5 * h3
  have hy5 : y ^ 5 = y ^ 2 + y := by linear_combination y * h4
  have hy6 : y ^ 6 = y ^ 3 + y ^ 2 := by linear_combination y * hy5
  have hy7 : y ^ 7 = y ^ 3 + y + 1 := by linear_combination y * hy6 + h4
  have hy8 : y ^ 8 = y ^ 2 + 2 * y + 1 := by linear_combination y * hy7 + h4
  have hy9 : y ^ 9 = y ^ 3 + 2 * y ^ 2 + y := by linear_combination y * hy8
  have hy10 : y ^ 10 = 2 * y ^ 3 + y ^ 2 + y + 1 := by linear_combination y * hy9 + h4
  have hy11 : y ^ 11 = y ^ 3 + y ^ 2 + 3 * y + 2 := by linear_combination y * hy10 + 2 * h4
  have hy12 : y ^ 12 = y ^ 3 + 3 * y ^ 2 + 3 * y + 1 := by linear_combination y * hy11 + h4
  linear_combination (y ^ 12) * hx12 - 3 * (y ^ 9) * hx9 - 2 * (y ^ 8) * hx8 + 2 * (y ^ 6) * hx6
    - (y ^ 5) * hx5 - 3 * (y ^ 4) * hx4 - (y ^ 3) * h3
    + (7 * x ^ 2 + 9 * x + 5) * hy12 - 3 * (3 * x ^ 2 + 4 * x + 2) * hy9
    - 2 * (2 * x ^ 2 + 3 * x + 2) * hy8 + 2 * (x ^ 2 + 2 * x + 1) * hy6
    - (x ^ 2 + x + 1) * hy5 - 3 * (x ^ 2 + x) * h4

/- ═══════════════ Helper lemmas: the numeric check conditions hold ════════ -/

theorem prop3NumericCheck_holds : prop3NumericCheck := by
  obtain ⟨x, hx⟩ := realRootSpec_exists 3 (by norm_num)
  obtain ⟨y, hy⟩ := realRootSpec_exists 4 (by norm_num)
  refine ⟨x, y, hx, hy, ?_⟩
  rw [P34_prod_root x y hx hy]
  norm_num

theorem cor8MainCheck_holds : cor8MainCheck := by
  obtain ⟨a, ha⟩ := realRootSpec_exists 2 (by norm_num)
  obtain ⟨b, hb⟩ := realRootSpec_exists 3 (by norm_num)
  obtain ⟨c, hc⟩ := realRootSpec_exists 4 (by norm_num)
  exact ⟨a, b, c, ha, hb, hc, mainRatioPct a b c ha hb hc⟩

theorem cor8DeficitCheck3_holds : cor8DeficitCheck 3 := by
  obtain ⟨a, ha⟩ := realRootSpec_exists 3 (by norm_num)
  obtain ⟨b, hb⟩ := realRootSpec_exists 4 (by norm_num)
  obtain ⟨c, hc⟩ := realRootSpec_exists 5 (by norm_num)
  refine ⟨a, b, c, ha, hb, hc, ?_⟩
  have := deficitLog3 a b c ha hb hc
  have hlog : Real.log b + Real.log c > 0 := by
    have := Real.log_pos hb.1
    have := Real.log_pos hc.1
    linarith
  exact deficitRatioPct (Real.log a) (Real.log b + Real.log c) (Real.log_pos ha.1) this

theorem cor8DeficitCheck4_holds : cor8DeficitCheck 4 := by
  obtain ⟨a, ha⟩ := realRootSpec_exists 4 (by norm_num)
  obtain ⟨b, hb⟩ := realRootSpec_exists 5 (by norm_num)
  obtain ⟨c, hc⟩ := realRootSpec_exists 6 (by norm_num)
  exact ⟨a, b, c, ha, hb, hc,
    deficitRatioPct (Real.log a) (Real.log b + Real.log c) (Real.log_pos ha.1)
      (deficitLog4 a b c ha hb hc)⟩

theorem cor8DeficitCheck5_holds : cor8DeficitCheck 5 := by
  obtain ⟨a, ha⟩ := realRootSpec_exists 5 (by norm_num)
  obtain ⟨b, hb⟩ := realRootSpec_exists 6 (by norm_num)
  obtain ⟨c, hc⟩ := realRootSpec_exists 7 (by norm_num)
  exact ⟨a, b, c, ha, hb, hc,
    deficitRatioPct (Real.log a) (Real.log b + Real.log c) (Real.log_pos ha.1)
      (deficitLog5 a b c ha hb hc)⟩

theorem cor8DeficitCheck6_holds : cor8DeficitCheck 6 := by
  obtain ⟨a, ha⟩ := realRootSpec_exists 6 (by norm_num)
  obtain ⟨b, hb⟩ := realRootSpec_exists 7 (by norm_num)
  obtain ⟨c, hc⟩ := realRootSpec_exists 8 (by norm_num)
  exact ⟨a, b, c, ha, hb, hc,
    deficitRatioPct (Real.log a) (Real.log b + Real.log c) (Real.log_pos ha.1)
      (deficitLog6 a b c ha hb hc)⟩

/- ═══════════════ Helper lemmas: the symbolic check conditions hold ═══════ -/

theorem thm4ChecksHold :
    Pdesc 3 4 = expectedCoeffs ∧
    canonD (divModGolden (Pdesc 3 4)).2 = [1, -1] ∧
    canonD (divModGolden (Pdesc 3 4)).1 = [1, 1, 2, 0, 0, 0, 2, 1, 0, 0, 0] ∧
    field_norm 1 (-1) = -1 ∧
    canonD (addD (mulD golden (divModGolden (Pdesc 3 4)).1) [1, -1]) = Pdesc 3 4 := by
  decide

theorem prop3ChecksHold :
    expectedCoeffs.sum = -7 ∧
    (expectedCoeffs.enum.map (fun p => p.2 * (-1) ^ (12 - p.1))).sum = 1 := by
  decide

theorem thm2ChecksHold :
    thm2ok 3 ∧ thm2ok 4 ∧ thm2ok 5 ∧ thm2ok 6 ∧ thm2ok 7 ∧ thm2ok 8 ∧ thm2ok 9 ∧
    thm2ok 10 ∧ thm2ok 11 ∧ thm2ok 12 ∧ thm2ok 13 := by
  decide

theorem thm6ChecksHold :
    normOf 3 4 = -1 ∧
    (thm6Pairs.filter (fun p => (normOf p.1 p.2).natAbs == 1)).length = 1 ∧
    ((thm6Pairs.map (fun p => (normOf p.1 p.2).natAbs)).filter (fun v => 1 < v)).min?
      = some 11 ∧
    (normOf 2 3).natAbs = 11 ∧
    (thm6Pairs.filter (fun p => p != (3, 4))).all (fun p => 11 ≤ (normOf p.1 p.2).natAbs)
      = true := by
  decide

/- ═══════════════ The claims ═══════════════ -/

/-- C1: for every n with 3 <= n <= 13, the remainder of P_{2,n}(t) modulo the
golden polynomial t^2 - t - 1 is a*t + b with a = -Fib(2n) + (-1)^(n+1) and
b = -Fib(2n-1), and field_norm(a, b) = (-1)^(n+1) * Lucas(2n-1). -/
theorem claim_C1 : ∀ n : Nat, 3 ≤ n → n ≤ 13 →
    (remPair (remOf 2 n)).1 = -fibonacci (2 * n) + (-1) ^ (n + 1) ∧
    (remPair (remOf 2 n)).2 = -fibonacci (2 * n - 1) ∧
    field_norm (remPair (remOf 2 n)).1 (remPair (remOf 2 n)).2 =
      (-1) ^ (n + 1) * lucas (2 * n - 1) := by
  intro n h1 h2
  interval_cases n <;> decide

/-- Witness for C1 at n = 3: remainder -7*t - 5 and norm 11 = Lucas 5. -/
theorem claim_C1_witness :
    (remPair (remOf 2 3)).1 = -fibonacci (2 * 3) + (-1) ^ (3 + 1) ∧
    (remPair (remOf 2 3)).2 = -fibonacci (2 * 3 - 1) ∧
    field_norm (remPair (remOf 2 3)).1 (remPair (remOf 2 3)).2 =
      (-1) ^ (3 + 1) * lucas (2 * 3 - 1) :=
  claim_C1 3 (by decide) (by decide)

/-- C2: over all pairs 2 <= m < n <= 8, (3,4) is the unique pair of unit norm
(its norm is -1), the minimum absolute norm over the remaining pairs is 11,
attained at (2,3), and every pair other than (3,4) has absolute norm >= 11. -/
theorem claim_C2 :
    normOf 3 4 = -1 ∧
    thm6Pairs.filter (fun p => (normOf p.1 p.2).natAbs == 1) = [(3, 4)] ∧
    ((thm6Pairs.filter (fun p => p != (3, 4))).map (fun p => (normOf p.1 p.2).natAbs)).min?
      = some 11 ∧
    (normOf 2 3).natAbs = 11 ∧
    (thm6Pairs.filter (fun p => p != (3, 4))).all (fun p => 11 ≤ (normOf p.1 p.2).natAbs)
      = true := by
  decide

/-- C3: the resultant of x^3 - x - 1 and t^4 - t*x^3 - x^4 has descending
coefficient list [1,0,0,-3,-2,0,2,-1,-3,-1,0,1,-1]; dividing by t^2 - t - 1
gives quotient t^10 + t^9 + 2t^8 + 2t^4 + t^3 and remainder t - 1; and
field_norm(1, -1) = -1. -/
theorem claim_C3 :
    Pdesc 3 4 = [1, 0, 0, -3, -2, 0, 2, -1, -3, -1, 0, 1, -1] ∧
    divModGolden (Pdesc 3 4) = ([1, 1, 2, 0, 0, 0, 2, 1, 0, 0, 0], [1, -1]) ∧
    field_norm 1 (-1) = -1 := by
  decide

/-- C4: division of P_{m,n}(t) by the golden polynomial reconstructs the
dividend: golden * quotient + remainder = P_{m,n}(t) as integer polynomials
(stated as equality of evaluations at every integer, which for integer
coefficient lists is coefficient-wise equality), with deg(remainder) < 2;
and for every pair the program exercises (all 2 <= m < n <= 8 and n = 3..13
with m = 2), the reconstruction also holds as literal coefficient-list
equality. -/
theorem claim_C4 :
    (∀ (m n : Nat) (x : Int),
        evalD golden x * evalD (divModGolden (Pdesc m n)).1 x
          + evalD (divModGolden (Pdesc m n)).2 x = evalD (Pdesc m n) x) ∧
    (∀ m n : Nat, ((divModGolden (Pdesc m n)).2).length ≤ 2) ∧
    (thm6Pairs ++ (List.range 11).map (fun i => (2, i + 3))).all (fun p =>
        canonD (addD (mulD golden (divModGolden (Pdesc p.1 p.2)).1)
            (divModGolden (Pdesc p.1 p.2)).2) == Pdesc p.1 p.2) = true := by
  refine ⟨?_, ?_, by decide⟩
  · intro m n x
    exact divModDAux_recon [-1, -1] x (Pdesc m n).length (Pdesc m n) le_rfl
  · intro m n
    exact divModDAux_r_length [-1, -1] (Pdesc m n).length (Pdesc m n) le_rfl

/-- C5: the run executes exactly 29 checks (5 Theorem 4, 3 Proposition 3,
11 Theorem 2, 5 Theorem 6, 5 Corollary 8), every check's condition is true
(the numeric conditions stated over the spec-modelled exact roots), and a
run of the harness on any all-true condition list of length k ends with
PASS = k and FAIL = 0, so the program reports 29 passes and zero failures. -/
theorem claim_C5 :
    allChecks.length = 29 ∧ listAnd allChecks ∧
    ∀ k : Nat, runChecks (List.replicate k true) = (k, 0) := by
  refine ⟨rfl, ?_, ?_⟩
  · simp only [allChecks, listAnd]
    obtain ⟨t41, t42, t43, t44, t45⟩ := thm4ChecksHold
    obtain ⟨p31, p32⟩ := prop3ChecksHold
    obtain ⟨w3, w4, w5, w6, w7, w8, w9, w10, w11, w12, w13⟩ := thm2ChecksHold
    obtain ⟨s61, s62, s63, s64, s65⟩ := thm6ChecksHold
    exact ⟨t41, t42, t43, t44, t45, p31, p32, prop3NumericCheck_holds,
      w3, w4, w5, w6, w7, w8, w9, w10, w11, w12, w13,
      s61, s62, s63, s64, s65,
      cor8MainCheck_holds, cor8DeficitCheck3_holds, cor8DeficitCheck4_holds,
      cor8DeficitCheck5_holds, cor8DeficitCheck6_holds, trivial⟩
  · intro k
    show runChecksFrom (0, 0) (List.replicate k true) = (k, 0)
    rw [runChecksFrom_true k (0, 0)]
    simp

/-- C6: a false check never stops the run early — the harness is a total fold
whose counters always sum to the number of checks executed — and only the
final step errors, carrying the fail count, exactly when the fail counter is
nonzero; an all-pass run completes normally. -/
theorem claim_C6 : ∀ bs : List Bool,
    (runChecks bs).1 + (runChecks bs).2 = bs.length ∧
    (finalResult (runChecks bs) = Except.ok () ↔ (runChecks bs).2 = 0) ∧
    (finalResult (runChecks bs) = Except.error (runChecks bs).2 ↔ (runChecks bs).2 ≠ 0) := by
  intro bs
  refine ⟨?_, ?_, ?_⟩
  · have h := runChecksFrom_sum bs (0, 0)
    simpa [runChecks] using h
  · rcases Nat.eq_zero_or_pos (runChecks bs).2 with h | h
    · rw [finalResult, h]
      simp
    · rw [finalResult, if_pos h]
      constructor
      · intro hok
        exact absurd hok (by simp)
      · intro h0
        omega
  · rcases Nat.eq_zero_or_pos (runChecks bs).2 with h | h
    · rw [finalResult, h]
      simp
    · rw [finalResult, if_pos h]
      constructor
      · intro _
        omega
      · intro _
        rfl

/-- C7: the asserted coefficient list of P_{3,4} gives P(1) = -7 as the plain
sum of coefficients and P(-1) = 1 as the alternating sum c_i * (-1)^(12-i),
by exact integer arithmetic; both agree with Horner evaluation at 1 and -1. -/
theorem claim_C7 :
    expectedCoeffs.sum = -7 ∧
    (expectedCoeffs.enum.map (fun p => p.2 * (-1) ^ (12 - p.1))).sum = 1 ∧
    evalD expectedCoeffs 1 = -7 ∧
    evalD expectedCoeffs (-1) = 1 := by
  decide

/-- C8: with r_n the (unique) real root > 1 of x^n = x + 1, the ratio
(log r_2 - (log r_3 + log r_4)) / log r_2 is within 0.00001 of 0.00115, and
for every n in 3..6 the ratio |log r_n - (log r_(n+1) + log r_(n+2))| / log r_n
exceeds 0.25. -/
theorem claim_C8 :
    (∀ (n : Nat) (r r' : ℝ), realRootSpec n r → realRootSpec n r' → r = r') ∧
    ∃ r2 r3 r4 r5 r6 r7 r8 : ℝ,
      realRootSpec 2 r2 ∧ realRootSpec 3 r3 ∧ realRootSpec 4 r4 ∧ realRootSpec 5 r5 ∧
      realRootSpec 6 r6 ∧ realRootSpec 7 r7 ∧ realRootSpec 8 r8 ∧
      |(Real.log r2 - (Real.log r3 + Real.log r4)) / Real.log r2 - 0.00115| < 0.00001 ∧
      |Real.log r3 - (Real.log r4 + Real.log r5)| / Real.log r3 > 0.25 ∧
      |Real.log r4 - (Real.log r5 + Real.log r6)| / Real.log r4 > 0.25 ∧
      |Real.log r5 - (Real.log r6 + Real.log r7)| / Real.log r5 > 0.25 ∧
      |Real.log r6 - (Real.log r7 + Real.log r8)| / Real.log r6 > 0.25 := by
  constructor
  · intro n r r' h h'
    exact realRootSpec_unique n r r' h h'
  · obtain ⟨r2, h2⟩ := realRootSpec_exists 2 (by norm_num)
    obtain ⟨r3, h3⟩ := realRootSpec_exists 3 (by norm_num)
    obtain ⟨r4, h4⟩ := realRootSpec_exists 4 (by norm_num)
    obtain ⟨r5, h5⟩ := realRootSpec_exists 5 (by norm_num)
    obtain ⟨r6, h6⟩ := realRootSpec_exists 6 (by norm_num)
    obtain ⟨r7, h7⟩ := realRootSpec_exists 7 (by norm_num)
    obtain ⟨r8, h8⟩ := realRootSpec_exists 8 (by norm_num)
    refine ⟨r2, r3, r4, r5, r6, r7, r8, h2, h3, h4, h5, h6, h7, h8,
      mainRatioAbs r2 r3 r4 h2 h3 h4, ?_, ?_, ?_, ?_⟩
    · exact deficitRatio (Real.log r3) (Real.log r4 + Real.log r5) (Real.log_pos h3.1)
        (deficitLog3 r3 r4 r5 h3 h4 h5)
    · exact deficitRatio (Real.log r4) (Real.log r5 + Real.log r6) (Real.log_pos h4.1)
        (deficitLog4 r4 r5 r6 h4 h5 h6)
    · exact deficitRatio (Real.log r5) (Real.log r6 + Real.log r7) (Real.log_pos h5.1)
        (deficitLog5 r5 r6 r7 h5 h6 h7)
    · exact deficitRatio (Real.log r6) (Real.log r7 + Real.log r8) (Real.log_pos h6.1)
        (deficitLog6 r6 r7 r8 h6 h7 h8)

/-- C9: field_norm is the multiplicative norm of Q(sqrt 5): with the product
(a*phi + b)(c*phi + d) represented via phi^2 = phi + 1 as
(ac + ad + bc)*phi + (ac + bd), norms multiply. -/
theorem claim_C9 : ∀ a b c d : Int,
    field_norm a b * field_norm c d = field_norm (a * c + a * d + b * c) (a * c + b * d) := by
  intro a b c d
  simp only [field_norm]
  ring

/-- C10: each check invocation increments exactly one counter by one (PASS on
true, FAIL on false) and leaves the other unchanged; over any run the
counters sum to the starting sum plus the number of checks and never
decrease. -/
theorem claim_C10 : ∀ (s : Nat × Nat) (bs : List Bool),
    check true s = (s.1 + 1, s.2) ∧
    check false s = (s.1, s.2 + 1) ∧
    (runChecksFrom s bs).1 + (runChecksFrom s bs).2 = s.1 + s.2 + bs.length ∧
    s.1 ≤ (runChecksFrom s bs).1 ∧ s.2 ≤ (runChecksFrom s bs).2 := by
  intro s bs
  exact ⟨rfl, rfl, runChecksFrom_sum bs s, (runChecksFrom_mono bs s).1,
    (runChecksFrom_mono bs s).2⟩
